import Mathlib

/-!
Shallow embedding of src/placeholder-collection-gen.py.

Randomness is modelled by an explicit stream of natural numbers
(g : Nat → Nat); the Python RNG primitives randint, sample and choice
become deterministic functions of the stream.  The filesystem is a pair
of a directory list and an association list from paths to contents, and
the network is an oracle mapping URLs to optional response bodies.
-/

/-! Configuration constants (lines 19-28 of the source).  The IPFS
folder comes from an external constants module that is not part of the
repository, so it stays a parameter of the functions that use it. -/

def NUM_FILES : Nat := 520

def NUM_ONE_OF_ONE : Nat := 10

def NUM_EDITION : Nat := 10

def OUTPUT_FOLDER : String := "data/json-metadata"

def SEPARATE_TOKEN_TYPES : Bool := true

def DOWNLOAD_DIR : String := "data/downloaded-images"

def IMAGE_BASE_URL : String := "https://vole.wtf/this-mp-does-not-exist/mp/mp"

/-- Decimal digits of a natural number, least significant first,
computed with explicit fuel so the recursion is structural. -/
def digitsFuel : Nat → Nat → List Nat
  | 0, _ => []
  | _ + 1, 0 => []
  | fuel + 1, n + 1 => (n + 1) % 10 :: digitsFuel fuel ((n + 1) / 10)

/-- Embedding of the Python conversion str(n) for a nonnegative integer:
its decimal digit string. -/
def decStr (n : Nat) : String :=
  if n = 0 then "0"
  else String.mk (((digitsFuel n n).reverse).map (fun d => Char.ofNat (48 + d)))

/-- Embedding of the format specification 0>5 used at line 134 of the
source: left-pad with the character 0 to width 5. -/
def zfill5 (s : String) : String :=
  String.mk (List.replicate (5 - s.length) (Char.ofNat 48)) ++ s

inductive AttrValue where
  | int : Nat → AttrValue
  | str : String → AttrValue
  deriving DecidableEq

structure AttributeRecord where
  name : String
  value : AttrValue
  deriving DecidableEq

inductive AttrSpec where
  | valueRange : Nat → Nat → AttrSpec
  | valueList : List String → AttrSpec
  deriving DecidableEq

structure AttrDef where
  name : String
  spec : AttrSpec
  deriving DecidableEq

/-- The fixed catalog of attribute definitions (lines 38-51). -/
def possible_attributes : List AttrDef :=
  [ ⟨"Height", .valueRange 150 210⟩,
    ⟨"Hair", .valueList ["Black", "Brown", "Blonde", "Red", "Gray"]⟩,
    ⟨"Age", .valueRange 18 100⟩,
    ⟨"Eye Color", .valueList ["Blue", "Green", "Brown", "Hazel", "Gray"]⟩,
    ⟨"Nationality", .valueList ["American", "British", "Canadian", "Australian", "French", "German"]⟩,
    ⟨"Hobby", .valueList ["Photography", "Painting", "Hiking", "Gaming", "Cooking", "Traveling"]⟩ ]

/-- Embedding of random.randint a b (inclusive bounds): the stream value
at position k folded into the interval. -/
def randint (g : Nat → Nat) (k a b : Nat) : Nat := a + g k % (b + 1 - a)

/-- Embedding of random.sample: repeatedly pick a remaining element at a
stream-chosen position and remove it, so the selection is without
replacement. -/
def sampleAux (g : Nat → Nat) : Nat → Nat → List α → List α
  | _, 0, _ => []
  | i, k + 1, l =>
    if h : l.length = 0 then []
    else
      l.get ⟨g i % l.length, Nat.mod_lt _ (Nat.pos_of_ne_zero h)⟩ ::
        sampleAux g (i + 1) k (l.eraseIdx (g i % l.length))

/-- Embedding of random.choice on a list of strings. -/
def choiceStr (g : Nat → Nat) (k : Nat) (l : List String) : String :=
  l.getD (g k % l.length) ""

/-- The body of the for loop of generate_attributes (lines 57-63): build
one AttributeRecord from a definition, sampling the value from its range
or from its list. -/
def pickValue (g : Nat → Nat) (k : Nat) (a : AttrDef) : AttributeRecord :=
  match a.spec with
  | .valueRange lo hi => ⟨a.name, .int (randint g k lo hi)⟩
  | .valueList vs => ⟨a.name, .str (choiceStr g k vs)⟩

/-- The for loop of generate_attributes, consuming one stream position
per selected attribute. -/
def attrLoop (g : Nat → Nat) : Nat → List AttrDef → List AttributeRecord
  | _, [] => []
  | k, a :: rest => pickValue g k a :: attrLoop g (k + 1) rest

/-- Embedding of generate_attributes (lines 31-65).  Stream position 0
chooses the count, positions 1-2 drive the sample, positions from 10 on
drive the per-attribute value choices. -/
def generate_attributes (g : Nat → Nat) : List AttributeRecord :=
  let num_attributes := randint g 0 0 2
  let selected_attributes := sampleAux g 1 num_attributes possible_attributes
  attrLoop g 10 selected_attributes

/-- Embedding of str.rstrip with the single character / (line 89): drop
every trailing slash. -/
def rstripSlash (s : String) : String :=
  String.mk ((s.data.reverse.dropWhile (fun c => c == Char.ofNat 47)).reverse)

structure MetadataRecord where
  name : String
  description : String
  image : String
  token_type : String
  attributes : List AttributeRecord
  deriving DecidableEq

/-- Token type assignment of generate_nft_metadata (lines 78-84). -/
def tokenTypeOf (index : Nat) : String :=
  if index ≥ NUM_FILES - (NUM_ONE_OF_ONE + NUM_EDITION) then
    if index < NUM_FILES - NUM_ONE_OF_ONE then "Edition" else "One of one"
  else "Folio"

/-- Embedding of generate_nft_metadata (lines 68-93), with the external
IPFS folder constant and the random stream as parameters. -/
def generate_nft_metadata (ipfsFolder : String) (g : Nat → Nat) (index : Nat) : MetadataRecord :=
  { name := "Fake MP " ++ decStr index
    description := "This is the item with id " ++ decStr index ++ " in the fake MP collection"
    image := rstripSlash ipfsFolder ++ "/" ++ decStr index ++ ".jpg"
    token_type := tokenTypeOf index
    attributes := generate_attributes g }

inductive Json where
  | str : String → Json
  | num : Nat → Json
  | arr : List Json → Json
  | obj : List (String × Json) → Json

def hexDigit (n : Nat) : Char :=
  if n < 10 then Char.ofNat (48 + n) else Char.ofNat (87 + n)

def hex4 (n : Nat) : String :=
  String.mk [hexDigit (n / 4096 % 16), hexDigit (n / 256 % 16), hexDigit (n / 16 % 16),
    hexDigit (n % 16)]

/-- Escape one character the way json.dump with its default ensure_ascii
setting does. -/
def escapeChar (c : Char) : String :=
  if c = Char.ofNat 34 then "\\\""
  else if c = Char.ofNat 92 then "\\\\"
  else if c = Char.ofNat 10 then "\\n"
  else if c = Char.ofNat 9 then "\\t"
  else if c = Char.ofNat 13 then "\\r"
  else if c.toNat = 8 then "\\b"
  else if c.toNat = 12 then "\\f"
  else if c.toNat < 32 ∨ 126 < c.toNat then
    if c.toNat < 65536 then "\\u" ++ hex4 c.toNat
    else
      "\\u" ++ hex4 (55296 + (c.toNat - 65536) / 1024) ++
        "\\u" ++ hex4 (56320 + (c.toNat - 65536) % 1024)
  else String.singleton c

def escapeString (s : String) : String := String.join (s.data.map escapeChar)

/-- Two-space indentation prefix at a given nesting level, as produced
by json.dump with indent=2. -/
def indentStr (lvl : Nat) : String := String.mk (List.replicate (2 * lvl) (Char.ofNat 32))

mutual

/-- Embedding of json.dump with indent=2: render a value whose opening
token sits at nesting level lvl. -/
def renderJson : Nat → Json → String
  | _, .str s => "\"" ++ escapeString s ++ "\""
  | _, .num n => decStr n
  | _, .arr [] => "[]"
  | lvl, .arr (x :: xs) => "[\n" ++ renderArr (lvl + 1) (x :: xs) ++ "\n" ++ indentStr lvl ++ "]"
  | _, .obj [] => "\x7b\x7d"
  | lvl, .obj (f :: fs) =>
    "\x7b\n" ++ renderObj (lvl + 1) (f :: fs) ++ "\n" ++ indentStr lvl ++ "\x7d"

/-- Render array items, one per line, separated by commas. -/
def renderArr : Nat → List Json → String
  | _, [] => ""
  | lvl, [x] => indentStr lvl ++ renderJson lvl x
  | lvl, x :: y :: xs => indentStr lvl ++ renderJson lvl x ++ ",\n" ++ renderArr lvl (y :: xs)

/-- Render object fields, one per line, separated by commas. -/
def renderObj : Nat → List (String × Json) → String
  | _, [] => ""
  | lvl, [(k, v)] => indentStr lvl ++ "\"" ++ escapeString k ++ "\": " ++ renderJson lvl v
  | lvl, (k, v) :: f :: fs =>
    indentStr lvl ++ "\"" ++ escapeString k ++ "\": " ++ renderJson lvl v ++ ",\n" ++
      renderObj lvl (f :: fs)

end

def jsonOfAttribute (a : AttributeRecord) : Json :=
  Json.obj [("name", Json.str a.name),
    ("value", match a.value with | .int n => Json.num n | .str s => Json.str s)]

/-- The JSON value of a MetadataRecord: the dict literal of lines 86-92,
keys in the field order of the record. -/
def jsonOfMetadata (md : MetadataRecord) : Json :=
  Json.obj [("name", Json.str md.name),
    ("description", Json.str md.description),
    ("image", Json.str md.image),
    ("token_type", Json.str md.token_type),
    ("attributes", Json.arr (md.attributes.map jsonOfAttribute))]

/-- Embedding of json.dump(metadata, f, indent=2): the serialized text
of one metadata record. -/
def dumps (md : MetadataRecord) : String := renderJson 0 (jsonOfMetadata md)

structure FS where
  dirs : List String
  files : List (String × String)
  deriving DecidableEq

/-- Latest content written at a path, if any. -/
def readFile (fs : FS) (p : String) : Option String := fs.files.lookup p

/-- Embedding of the existence check Path(file_name).exists() on files. -/
def fileExists (fs : FS) (p : String) : Bool := (readFile fs p).isSome

/-- Writing a file: the new content shadows any previous content at the
same path (opening with mode w truncates and rewrites). -/
def writeFile (fs : FS) (p c : String) : FS := { fs with files := (p, c) :: fs.files }

/-- Does the path end with a slash? -/
def endsWithSlash (s : String) : Bool := s.data.getLast? == some (Char.ofNat 47)

/-- Embedding of os.path.join for the relative, nonempty second
components this program joins: insert a separator unless the first
component is empty or already ends with one. -/
def pathJoin (a b : String) : String :=
  if a = "" then b else if endsWithSlash a then a ++ b else a ++ "/" ++ b

/-- Split a character list at every slash, the way str.split("/")
does. -/
def splitSlash : List Char → List (List Char)
  | [] => [[]]
  | c :: rest =>
    match splitSlash rest, c == Char.ofNat 47 with
    | r, true => [] :: r
    | [], false => [[c]]
    | h :: t, false => (c :: h) :: t

/-- Join path components with slashes. -/
def joinSlash : List String → String
  | [] => ""
  | [s] => s
  | s :: rest => s ++ "/" ++ joinSlash rest

/-- The proper prefix paths of p obtained by splitting on slashes,
shortest first: the parent directories of p. -/
def parentsOf (p : String) : List String :=
  let parts := (splitSlash p.data).map String.mk
  (List.range (parts.length - 1)).map (fun k => joinSlash (parts.take (k + 1)))

/-- Append a directory if it is not present yet. -/
def insertDir (ds : List String) (d : String) : List String :=
  if d ∈ ds then ds else ds ++ [d]

/-- Embedding of Path(p).mkdir(parents=True, exist_ok=True): record the
missing parents of p and then p itself as directories; never an
error. -/
def mkdirP (fs : FS) (p : String) : FS :=
  { fs with dirs := (parentsOf p ++ [p]).foldl insertDir fs.dirs }

/-- Embedding of save_metadata_to_file (lines 96-112), with a write
oracle telling which paths the operating system lets the program write
to (an all-true oracle is a healthy filesystem).  A failed write is an
uncaught exception, modelled as Except.error. -/
def save_metadata_to_file (saveOk : String → Bool) (folder : String) (index : Nat)
    (metadata : MetadataRecord) (fs : FS) : Except Unit FS :=
  let dir := if SEPARATE_TOKEN_TYPES then pathJoin folder metadata.token_type else folder
  let fs1 := if SEPARATE_TOKEN_TYPES then mkdirP fs dir else fs
  let fname := pathJoin dir (decStr index)
  if saveOk fname then Except.ok (writeFile fs1 fname (dumps metadata)) else Except.error ()

/-- Embedding of the metadata branch of main (lines 162-171): create the
output folder if absent, then generate and save one record per index; a
write failure propagates and aborts the remaining indices.  The random
stream is indexed per item. -/
def metadataPipeline (saveOk : String → Bool) (ipfsFolder : String)
    (g : Nat → Nat → Nat) (fs0 : FS) : Except Unit FS :=
  let fs1 := if OUTPUT_FOLDER ∈ fs0.dirs then fs0 else mkdirP fs0 OUTPUT_FOLDER
  (List.range' 0 NUM_FILES).foldlM
    (fun fs i => save_metadata_to_file saveOk OUTPUT_FOLDER i
      (generate_nft_metadata ipfsFolder (g i) i) fs) fs1

inductive Event where
  | request : String → Event
  | sleep : Event
  | skipNote : String → Event
  | errNote : Nat → Event
  | wrote : String → Event
  deriving DecidableEq

/-- The environment of the image fetcher: what a URL fetch returns (none
is a raised network error), what image decoding yields on a body (none
is a decode failure), and which paths can be written. -/
structure Net where
  fetch : String → Option String
  decode : String → Option String
  saveOk : String → Bool

structure DLState where
  fs : FS
  errCnt : Nat
  events : List Event
  deriving DecidableEq

/-- Destination path {download_dir}/{i}.jpg of line 130. -/
def imagePath (download_dir : String) (i : Nat) : String :=
  pathJoin download_dir (decStr i ++ ".jpg")

/-- Source URL of line 134: the base URL, the index zero-padded to width
5, and the extension. -/
def imageUrl (base_url : String) (i : Nat) : String :=
  base_url ++ zfill5 (decStr i) ++ ".jpg"

/-- One iteration of the for loop of download_random_images (lines
128-143).  The existence check short-circuits with continue before the
sleep; any failure in fetch, decode or save is caught by the except
block, which increments the error count; the sleep runs after every
download attempt, successful or failed. -/
def downloadStep (net : Net) (base_url download_dir : String) (i : Nat) (s : DLState) : DLState :=
  let fileName := imagePath download_dir i
  if fileExists s.fs fileName then
    { s with events := s.events ++ [Event.skipNote fileName] }
  else
    let url := imageUrl base_url i
    match net.fetch url with
    | none =>
      { s with errCnt := s.errCnt + 1,
               events := s.events ++ [Event.request url, Event.errNote i, Event.sleep] }
    | some body =>
      match net.decode body with
      | none =>
        { s with errCnt := s.errCnt + 1,
                 events := s.events ++ [Event.request url, Event.errNote i, Event.sleep] }
      | some img =>
        if net.saveOk fileName then
          { s with fs := writeFile s.fs fileName img,
                   events := s.events ++ [Event.request url, Event.wrote fileName, Event.sleep] }
        else
          { s with errCnt := s.errCnt + 1,
                   events := s.events ++ [Event.request url, Event.errNote i, Event.sleep] }

/-- Embedding of download_random_images (lines 115-144): create the
download folder, then run the loop over range(ind_start, ind_end). -/
def download_random_images (net : Net) (ind_start ind_end : Nat)
    (base_url download_dir : String) (fs0 : FS) : DLState :=
  (List.range' ind_start (ind_end - ind_start)).foldl
    (fun s i => downloadStep net base_url download_dir i s)
    { fs := mkdirP fs0 download_dir, errCnt := 0, events := [] }

def isSkipEvent : Event → Bool
  | .skipNote _ => true
  | _ => false

def isRequestEvent : Event → Bool
  | .request _ => true
  | _ => false

def errIndexOf : Event → Option Nat
  | .errNote i => some i
  | _ => none

/-- The value constraint the catalog places on one attribute record: its
name is a catalog name and its value fits that entry. -/
def validValueFor (spec : AttrSpec) (v : AttrValue) : Bool :=
  match spec, v with
  | .valueRange lo hi, .int n => decide (lo ≤ n) && decide (n ≤ hi)
  | .valueList vs, .str s => vs.contains s
  | _, _ => false

def validAttribute (a : AttributeRecord) : Bool :=
  possible_attributes.any (fun d => d.name == a.name && validValueFor d.spec a.value)

def sleepCount (l : List Event) : Nat := l.count Event.sleep

def skipCount (l : List Event) : Nat := l.countP isSkipEvent

def reqCount (l : List Event) : Nat := l.countP isRequestEvent

def errIndices (l : List Event) : List Nat := l.filterMap errIndexOf

def jsonKeys : Json → List String
  | .obj fields => fields.map Prod.fst
  | _ => []

/-! Helper lemmas. -/

theorem digitsFuel_length_le : ∀ (f n k : Nat), n ≤ f → n < 10 ^ k → (digitsFuel f n).length ≤ k := by
  intro f
  induction f with
  | zero => intro n k _ _; simp [digitsFuel]
  | succ f ih =>
    intro n k hn hk
    match n with
    | 0 => simp [digitsFuel]
    | n + 1 =>
      match k with
      | 0 => simp at hk
      | k + 1 =>
        have hd : (n + 1) / 10 ≤ f := by
          have := Nat.div_lt_self (Nat.succ_pos n) (by norm_num : 1 < 10)
          omega
        have hb : (n + 1) / 10 < 10 ^ k := by
          rw [Nat.div_lt_iff_lt_mul (by norm_num : 0 < 10)]
          calc n + 1 < 10 ^ (k + 1) := hk
          _ = 10 ^ k * 10 := by ring
        have := ih ((n + 1) / 10) k hd hb
        simp only [digitsFuel, List.length_cons]
        omega

theorem decStr_length_le (n : Nat) (h : n < 100000) : (decStr n).length ≤ 5 := by
  by_cases h0 : n = 0
  · subst h0; decide
  · have : (digitsFuel n n).length ≤ 5 :=
      digitsFuel_length_le n n 5 (Nat.le_refl n) (by norm_num at h ⊢; omega)
    simp only [decStr, if_neg h0, String.length_mk, List.length_map, List.length_reverse]
    exact this

theorem zfill5_length (s : String) (h : s.length ≤ 5) : (zfill5 s).length = 5 := by
  simp only [zfill5, String.length_append, String.length_mk, List.length_replicate]
  omega

theorem zfill5_length_decStr (i : Nat) (h : i < 100000) : (zfill5 (decStr i)).length = 5 :=
  zfill5_length _ (decStr_length_le i h)

/-! Claim C1: token type assignment by position. -/

set_option maxRecDepth 40000 in
/-- C1: with N=520, K1=10 (one-of-one count), K2=10 (edition count),
generate_nft_metadata assigns the token type purely by position: Folio
for i below N-(K1+K2), Edition for N-(K1+K2) ≤ i < N-K1, One of one for
i ≥ N-K1; the three blocks partition the range of 520 indices with sizes
500, 10 and 10, and the sample indices 499, 500, 509, 510, 519 land in
the stated blocks. -/
theorem generate_nft_metadata_token_type_partition :
    (∀ ipfsFolder g i, (generate_nft_metadata ipfsFolder g i).token_type = tokenTypeOf i) ∧
    (∀ i, i < NUM_FILES →
      (i < NUM_FILES - (NUM_ONE_OF_ONE + NUM_EDITION) → tokenTypeOf i = "Folio") ∧
      (NUM_FILES - (NUM_ONE_OF_ONE + NUM_EDITION) ≤ i → i < NUM_FILES - NUM_ONE_OF_ONE →
        tokenTypeOf i = "Edition") ∧
      (NUM_FILES - NUM_ONE_OF_ONE ≤ i → tokenTypeOf i = "One of one")) ∧
    (List.range NUM_FILES).countP (fun i => tokenTypeOf i == "Folio") =
      NUM_FILES - NUM_ONE_OF_ONE - NUM_EDITION ∧
    (List.range NUM_FILES).countP (fun i => tokenTypeOf i == "Edition") = NUM_EDITION ∧
    (List.range NUM_FILES).countP (fun i => tokenTypeOf i == "One of one") = NUM_ONE_OF_ONE ∧
    tokenTypeOf 499 = "Folio" ∧ tokenTypeOf 500 = "Edition" ∧ tokenTypeOf 509 = "Edition" ∧
    tokenTypeOf 510 = "One of one" ∧ tokenTypeOf 519 = "One of one" := by
  refine ⟨fun ipf g i => rfl, ?_, ?_, ?_, ?_, by decide, by decide, by decide, by decide,
    by decide⟩
  · intro i _
    simp only [tokenTypeOf, NUM_FILES, NUM_ONE_OF_ONE, NUM_EDITION]
    refine ⟨?_, ?_, ?_⟩
    · intro h; rw [if_neg (by omega)]
    · intro h1 h2; rw [if_pos (by omega), if_pos (by omega)]
    · intro h; rw [if_pos (by omega), if_neg (by omega)]
  · decide
  · decide
  · decide

/-- Witness for C1 at the concrete indices 505 and 515. -/
theorem generate_nft_metadata_token_type_partition_witness :
    tokenTypeOf 505 = "Edition" ∧ tokenTypeOf 515 = "One of one" :=
  ⟨(generate_nft_metadata_token_type_partition.2.1 505 (by decide)).2.1 (by decide) (by decide),
   (generate_nft_metadata_token_type_partition.2.1 515 (by decide)).2.2 (by decide)⟩

/-! Claim C9: determinism of the non-attribute fields. -/

/-- C9: two runs of generate_nft_metadata on the same index and the same
IPFS folder agree on name, description, image and token type whatever
the random streams are, and the image field is the base path with its
trailing slashes stripped, a slash, the decimal index and the jpg
extension. -/
theorem generate_nft_metadata_deterministic_fields :
    ∀ (ipfsFolder : String) (g₁ g₂ : Nat → Nat) (index : Nat),
      (generate_nft_metadata ipfsFolder g₁ index).name =
        (generate_nft_metadata ipfsFolder g₂ index).name ∧
      (generate_nft_metadata ipfsFolder g₁ index).description =
        (generate_nft_metadata ipfsFolder g₂ index).description ∧
      (generate_nft_metadata ipfsFolder g₁ index).image =
        (generate_nft_metadata ipfsFolder g₂ index).image ∧
      (generate_nft_metadata ipfsFolder g₁ index).token_type =
        (generate_nft_metadata ipfsFolder g₂ index).token_type ∧
      (generate_nft_metadata ipfsFolder g₁ index).image =
        rstripSlash ipfsFolder ++ "/" ++ decStr index ++ ".jpg" :=
  fun _ _ _ _ => ⟨rfl, rfl, rfl, rfl, rfl⟩

/-! Helper lemmas for the attribute generator. -/

theorem cons_eraseIdx_perm (l : List α) (j : Nat) (h : j < l.length) :
    List.Perm l (l.get ⟨j, h⟩ :: l.eraseIdx j) := by
  rw [List.eraseIdx_eq_take_drop_succ]
  conv_lhs => rw [← List.take_append_drop j l, ← List.getElem_cons_drop l j h]
  exact List.perm_middle

theorem sampleAux_subperm (g : Nat → Nat) :
    ∀ (k i : Nat) (l : List α), List.Subperm (sampleAux g i k l) l := by
  intro k
  induction k with
  | zero => intro i l; exact List.nil_subperm
  | succ k ih =>
    intro i l
    by_cases h : l.length = 0
    · simp [sampleAux, h]
    · simp only [sampleAux, dif_neg h]
      have hlt : g i % l.length < l.length := Nat.mod_lt _ (Nat.pos_of_ne_zero h)
      obtain ⟨t, ht1, ht2⟩ := ih (i + 1) (l.eraseIdx (g i % l.length))
      have hsub : List.Subperm
          (l.get ⟨g i % l.length, hlt⟩ :: sampleAux g (i + 1) k (l.eraseIdx (g i % l.length)))
          (l.get ⟨g i % l.length, hlt⟩ :: l.eraseIdx (g i % l.length)) :=
        ⟨l.get ⟨g i % l.length, hlt⟩ :: t, ht1.cons _, ht2.cons₂ _⟩
      exact ((cons_eraseIdx_perm l _ hlt).symm.subperm_left).mp hsub

theorem sampleAux_length (g : Nat → Nat) :
    ∀ (k i : Nat) (l : List α), k ≤ l.length → (sampleAux g i k l).length = k := by
  intro k
  induction k with
  | zero => intro i l _; rfl
  | succ k ih =>
    intro i l hk
    have h : ¬ l.length = 0 := by omega
    have hlt : g i % l.length < l.length := Nat.mod_lt _ (Nat.pos_of_ne_zero h)
    simp only [sampleAux, dif_neg h, List.length_cons]
    rw [ih (i + 1) (l.eraseIdx (g i % l.length))
      (by rw [List.length_eraseIdx, if_pos hlt]; omega)]

theorem subperm_map (f : α → β) {l₁ l₂ : List α} (h : List.Subperm l₁ l₂) :
    List.Subperm (l₁.map f) (l₂.map f) := by
  obtain ⟨t, ht1, ht2⟩ := h
  exact ⟨t.map f, ht1.map f, ht2.map f⟩

theorem pickValue_name (g : Nat → Nat) (k : Nat) (a : AttrDef) :
    (pickValue g k a).name = a.name := by
  cases a with
  | mk n sp => cases sp <;> rfl

theorem attrLoop_length (g : Nat → Nat) :
    ∀ (k : Nat) (l : List AttrDef), (attrLoop g k l).length = l.length := by
  intro k l
  induction l generalizing k with
  | nil => rfl
  | cons a rest ih => simp [attrLoop, ih]

theorem attrLoop_names (g : Nat → Nat) :
    ∀ (k : Nat) (l : List AttrDef),
      (attrLoop g k l).map AttributeRecord.name = l.map AttrDef.name := by
  intro k l
  induction l generalizing k with
  | nil => rfl
  | cons a rest ih => simp [attrLoop, ih, pickValue_name]

theorem attrLoop_mem (g : Nat → Nat) :
    ∀ (k : Nat) (l : List AttrDef) (a : AttributeRecord), a ∈ attrLoop g k l →
      ∃ d ∈ l, ∃ j, a = pickValue g j d := by
  intro k l
  induction l generalizing k with
  | nil => intro a ha; simp [attrLoop] at ha
  | cons d rest ih =>
    intro a ha
    simp only [attrLoop, List.mem_cons] at ha
    rcases ha with ha | ha
    · exact ⟨d, List.mem_cons_self d rest, k, ha⟩
    · obtain ⟨d2, hd2, j, hj⟩ := ih (k + 1) a ha
      exact ⟨d2, List.mem_cons_of_mem d hd2, j, hj⟩

theorem contains_getD (l : List String) (i : Nat) (h : i < l.length) :
    l.contains (l.getD i "") = true := by
  have hm : l.getD i "" ∈ l := by
    rw [List.getD_eq_getElem?_getD, List.getElem?_eq_getElem h]
    simp
  exact List.elem_iff.mpr hm

theorem validAttribute_valueList (nm : String) (vs : List String) (g : Nat → Nat) (k : Nat)
    (hmem : AttrDef.mk nm (.valueList vs) ∈ possible_attributes)
    (hc : vs.contains (choiceStr g k vs) = true) :
    validAttribute (pickValue g k ⟨nm, .valueList vs⟩) = true := by
  simp only [pickValue, validAttribute, List.any_eq_true]
  exact ⟨⟨nm, .valueList vs⟩, hmem, by
    simp only [validValueFor, beq_self_eq_true, Bool.true_and]
    exact hc⟩

theorem pickValue_valid (g : Nat → Nat) (k : Nat) (d : AttrDef)
    (hd : d ∈ possible_attributes) : validAttribute (pickValue g k d) = true := by
  fin_cases hd
  · have hm : g k % 61 < 61 := Nat.mod_lt _ (by norm_num)
    simp [validAttribute, possible_attributes, pickValue, validValueFor, randint]
    omega
  · exact validAttribute_valueList "Hair" _ g k (by decide)
      (contains_getD _ _ (Nat.mod_lt _ (by decide)))
  · have hm : g k % 83 < 83 := Nat.mod_lt _ (by norm_num)
    simp [validAttribute, possible_attributes, pickValue, validValueFor, randint]
    omega
  · exact validAttribute_valueList "Eye Color" _ g k (by decide)
      (contains_getD _ _ (Nat.mod_lt _ (by decide)))
  · exact validAttribute_valueList "Nationality" _ g k (by decide)
      (contains_getD _ _ (Nat.mod_lt _ (by decide)))
  · exact validAttribute_valueList "Hobby" _ g k (by decide)
      (contains_getD _ _ (Nat.mod_lt _ (by decide)))

/-! Claim C2: soundness of the attribute generator. -/

/-- C2: for every random stream, generate_attributes returns 0, 1 or 2
records, the count being the randint draw from 0 to 2; the attribute
names in one result are pairwise distinct because the catalog entries
are sampled without replacement; and every value lies in its inclusive
range (Height 150-210, Age 18-100) or its enumerated set (Hair, Eye
Color, Nationality, Hobby). -/
theorem generate_attributes_sound (g : Nat → Nat) :
    ((generate_attributes g).length = 0 ∨ (generate_attributes g).length = 1 ∨
      (generate_attributes g).length = 2) ∧
    ((generate_attributes g).map AttributeRecord.name).Nodup ∧
    ∀ a ∈ generate_attributes g, validAttribute a = true := by
  have hnum : randint g 0 0 2 ≤ 2 := by
    have h3 : g 0 % 3 < 3 := Nat.mod_lt _ (by norm_num)
    simp only [randint]
    omega
  refine ⟨?_, ?_, ?_⟩
  · have hlen : (generate_attributes g).length = randint g 0 0 2 := by
      simp only [generate_attributes]
      rw [attrLoop_length, sampleAux_length g _ 1 possible_attributes
        (le_trans hnum (by decide))]
    omega
  · simp only [generate_attributes]
    rw [attrLoop_names]
    obtain ⟨t, ht1, ht2⟩ := subperm_map AttrDef.name
      (sampleAux_subperm g (randint g 0 0 2) 1 possible_attributes)
    have hcat : (possible_attributes.map AttrDef.name).Nodup := by decide
    exact ht1.nodup_iff.mp (hcat.sublist ht2)
  · intro a ha
    simp only [generate_attributes] at ha
    obtain ⟨d, hd, j, hj⟩ := attrLoop_mem g 10 _ a ha
    have hdcat : d ∈ possible_attributes :=
      (sampleAux_subperm g (randint g 0 0 2) 1 possible_attributes).subset hd
    rw [hj]
    exact pickValue_valid g j d hdcat

/-- Witness for C2: the constant stream 1 yields the single record Hair
= Brown, and that record satisfies the catalog constraint. -/
theorem generate_attributes_sound_witness :
    validAttribute ⟨"Hair", AttrValue.str "Brown"⟩ = true :=
  (generate_attributes_sound (fun _ => 1)).2.2 ⟨"Hair", AttrValue.str "Brown"⟩ (by decide)

/-! Helper lemmas for the image fetcher. -/

theorem fileExists_congr {fs fs2 : FS} (h : fs.files = fs2.files) (p : String) :
    fileExists fs p = fileExists fs2 p := by
  simp [fileExists, readFile, h]

theorem readFile_writeFile (fs : FS) (p c : String) :
    readFile (writeFile fs p c) p = some c := by
  simp [readFile, writeFile, List.lookup]

theorem downloadStep_skip (net : Net) (b d : String) (i : Nat) (s : DLState)
    (h : fileExists s.fs (imagePath d i) = true) :
    downloadStep net b d i s = { s with events := s.events ++ [Event.skipNote (imagePath d i)] } := by
  simp [downloadStep, h]

theorem downloadStep_fetch_fail (net : Net) (b d : String) (i : Nat) (s : DLState)
    (h : fileExists s.fs (imagePath d i) = false)
    (hf : net.fetch (imageUrl b i) = none) :
    downloadStep net b d i s =
      { s with errCnt := s.errCnt + 1,
               events := s.events ++ [Event.request (imageUrl b i), Event.errNote i,
                 Event.sleep] } := by
  simp [downloadStep, h, hf]

theorem downloadStep_decode_fail (net : Net) (b d : String) (i : Nat) (s : DLState)
    (h : fileExists s.fs (imagePath d i) = false)
    (body : String) (hf : net.fetch (imageUrl b i) = some body)
    (hd : net.decode body = none) :
    downloadStep net b d i s =
      { s with errCnt := s.errCnt + 1,
               events := s.events ++ [Event.request (imageUrl b i), Event.errNote i,
                 Event.sleep] } := by
  simp [downloadStep, h, hf, hd]

theorem downloadStep_save_fail (net : Net) (b d : String) (i : Nat) (s : DLState)
    (h : fileExists s.fs (imagePath d i) = false)
    (body img : String) (hf : net.fetch (imageUrl b i) = some body)
    (hd : net.decode body = some img) (hs : net.saveOk (imagePath d i) = false) :
    downloadStep net b d i s =
      { s with errCnt := s.errCnt + 1,
               events := s.events ++ [Event.request (imageUrl b i), Event.errNote i,
                 Event.sleep] } := by
  simp [downloadStep, h, hf, hd, hs]

theorem downloadStep_success (net : Net) (b d : String) (i : Nat) (s : DLState)
    (h : fileExists s.fs (imagePath d i) = false)
    (body img : String) (hf : net.fetch (imageUrl b i) = some body)
    (hd : net.decode body = some img) (hs : net.saveOk (imagePath d i) = true) :
    downloadStep net b d i s =
      { s with fs := writeFile s.fs (imagePath d i) img,
               events := s.events ++ [Event.request (imageUrl b i),
                 Event.wrote (imagePath d i), Event.sleep] } := by
  simp [downloadStep, h, hf, hd, hs]

theorem downloadStep_spec (net : Net) (b d : String) (i : Nat) (s : DLState) :
    ∃ evs : List Event,
      (downloadStep net b d i s).events = s.events ++ evs ∧
      (downloadStep net b d i s).errCnt = s.errCnt + (errIndices evs).length ∧
      (downloadStep net b d i s).fs.dirs = s.fs.dirs ∧
      sleepCount evs + skipCount evs = 1 ∧
      (errIndices evs = [] ∨ errIndices evs = [i]) := by
  by_cases h : fileExists s.fs (imagePath d i) = true
  · refine ⟨[Event.skipNote (imagePath d i)], ?_⟩
    rw [downloadStep_skip net b d i s h]
    simp [sleepCount, skipCount, errIndices, errIndexOf, isSkipEvent, List.count_cons]
  · rw [Bool.not_eq_true] at h
    cases hf : net.fetch (imageUrl b i) with
    | none =>
      refine ⟨[Event.request (imageUrl b i), Event.errNote i, Event.sleep], ?_⟩
      rw [downloadStep_fetch_fail net b d i s h hf]
      simp [sleepCount, skipCount, errIndices, errIndexOf, isSkipEvent, List.count_cons]
    | some body =>
      cases hd : net.decode body with
      | none =>
        refine ⟨[Event.request (imageUrl b i), Event.errNote i, Event.sleep], ?_⟩
        rw [downloadStep_decode_fail net b d i s h body hf hd]
        simp [sleepCount, skipCount, errIndices, errIndexOf, isSkipEvent, List.count_cons]
      | some img =>
        by_cases hs : net.saveOk (imagePath d i) = true
        · refine ⟨[Event.request (imageUrl b i), Event.wrote (imagePath d i), Event.sleep], ?_⟩
          rw [downloadStep_success net b d i s h body img hf hd hs]
          simp [sleepCount, skipCount, errIndices, errIndexOf, isSkipEvent, writeFile,
            List.count_cons]
        · rw [Bool.not_eq_true] at hs
          refine ⟨[Event.request (imageUrl b i), Event.errNote i, Event.sleep], ?_⟩
          rw [downloadStep_save_fail net b d i s h body img hf hd hs]
          simp [sleepCount, skipCount, errIndices, errIndexOf, isSkipEvent, List.count_cons]

theorem downloadLoop_spec (net : Net) (b d : String) :
    ∀ (l : List Nat) (s : DLState),
      ∃ evs : List Event,
        (l.foldl (fun s i => downloadStep net b d i s) s).events = s.events ++ evs ∧
        (l.foldl (fun s i => downloadStep net b d i s) s).errCnt =
          s.errCnt + (errIndices evs).length ∧
        (l.foldl (fun s i => downloadStep net b d i s) s).fs.dirs = s.fs.dirs ∧
        sleepCount evs + skipCount evs = l.length ∧
        List.Sublist (errIndices evs) l := by
  intro l
  induction l with
  | nil =>
    intro s
    exact ⟨[], by simp, by simp [errIndices], rfl, rfl, by simp [errIndices]⟩
  | cons i t ih =>
    intro s
    obtain ⟨e1, he1, he2, he3, he4, he5⟩ := downloadStep_spec net b d i s
    obtain ⟨e2, hf1, hf2, hf3, hf4, hf5⟩ := ih (downloadStep net b d i s)
    refine ⟨e1 ++ e2, ?_, ?_, ?_, ?_, ?_⟩
    · rw [List.foldl_cons, hf1, he1, List.append_assoc]
    · rw [List.foldl_cons, hf2, he2]
      simp only [errIndices, List.filterMap_append, List.length_append]
      simp only [errIndices] at *
      omega
    · rw [List.foldl_cons, hf3, he3]
    · simp only [sleepCount, skipCount, List.count_append, List.countP_append] at *
      simp only [List.length_cons]
      omega
    · simp only [errIndices, List.filterMap_append] at *
      rcases he5 with he5 | he5
      · rw [he5, List.nil_append]
        exact hf5.cons i
      · rw [he5]
        exact hf5.cons₂ i

theorem downloadLoop_all_skip (net : Net) (b d : String) :
    ∀ (l : List Nat) (s : DLState),
      (∀ i ∈ l, fileExists s.fs (imagePath d i) = true) →
      l.foldl (fun s i => downloadStep net b d i s) s =
        { s with events := s.events ++ l.map (fun i => Event.skipNote (imagePath d i)) } := by
  intro l
  induction l with
  | nil => intro s _; simp
  | cons i t ih =>
    intro s hall
    rw [List.foldl_cons, downloadStep_skip net b d i s (hall i (List.mem_cons_self i t))]
    rw [ih { fs := s.fs, errCnt := s.errCnt, events := s.events ++ [Event.skipNote (imagePath d i)] }
      (fun j hj => hall j (List.mem_cons_of_mem i hj))]
    simp

/-! Claim C3: rerunning over an already-complete range is a no-op. -/

/-- C3: if every target file {download_dir}/{i}.jpg of the range already
exists, download_random_images makes zero requests, writes no files,
ends with error count 0, and its whole event log is the per-index skip
notices. -/
theorem download_all_exists_noop (net : Net) (ind_start ind_end : Nat) (b d : String) (fs0 : FS)
    (hall : ∀ i ∈ List.range' ind_start (ind_end - ind_start),
      fileExists fs0 (imagePath d i) = true) :
    (download_random_images net ind_start ind_end b d fs0).errCnt = 0 ∧
    (download_random_images net ind_start ind_end b d fs0).fs.files = fs0.files ∧
    reqCount (download_random_images net ind_start ind_end b d fs0).events = 0 ∧
    (download_random_images net ind_start ind_end b d fs0).events =
      (List.range' ind_start (ind_end - ind_start)).map
        (fun i => Event.skipNote (imagePath d i)) := by
  have hmk : (mkdirP fs0 d).files = fs0.files := rfl
  have hall2 : ∀ i ∈ List.range' ind_start (ind_end - ind_start),
      fileExists (mkdirP fs0 d) (imagePath d i) = true := by
    intro i hi
    rw [fileExists_congr hmk]
    exact hall i hi
  have h := downloadLoop_all_skip net b d (List.range' ind_start (ind_end - ind_start))
    ⟨mkdirP fs0 d, 0, []⟩ hall2
  have hres : download_random_images net ind_start ind_end b d fs0 =
      { fs := mkdirP fs0 d, errCnt := 0,
        events := (List.range' ind_start (ind_end - ind_start)).map
          (fun i => Event.skipNote (imagePath d i)) } := by
    rw [download_random_images, h]
    simp
  rw [hres]
  refine ⟨rfl, hmk, ?_, rfl⟩
  simp only [reqCount, List.countP_map]
  have : ∀ i ∈ List.range' ind_start (ind_end - ind_start),
      (isRequestEvent ∘ fun i => Event.skipNote (imagePath d i)) i = false := by
    intro i _
    rfl
  rw [List.countP_eq_zero.mpr]
  intro i hi
  simp [Function.comp, isRequestEvent]

/-- Witness for C3: a two-index range whose two files exist already. -/
theorem download_all_exists_noop_witness :
    (download_random_images ⟨fun _ => some "body", fun _ => some "img", fun _ => true⟩
      0 2 "u" "d" ⟨[], [("d/0.jpg", "x"), ("d/1.jpg", "y")]⟩).errCnt = 0 ∧
    (download_random_images ⟨fun _ => some "body", fun _ => some "img", fun _ => true⟩
      0 2 "u" "d" ⟨[], [("d/0.jpg", "x"), ("d/1.jpg", "y")]⟩).fs.files =
      [("d/0.jpg", "x"), ("d/1.jpg", "y")] ∧
    reqCount (download_random_images ⟨fun _ => some "body", fun _ => some "img", fun _ => true⟩
      0 2 "u" "d" ⟨[], [("d/0.jpg", "x"), ("d/1.jpg", "y")]⟩).events = 0 ∧
    (download_random_images ⟨fun _ => some "body", fun _ => some "img", fun _ => true⟩
      0 2 "u" "d" ⟨[], [("d/0.jpg", "x"), ("d/1.jpg", "y")]⟩).events =
      (List.range' 0 2).map (fun i => Event.skipNote (imagePath "d" i)) :=
  download_all_exists_noop ⟨fun _ => some "body", fun _ => some "img", fun _ => true⟩
    0 2 "u" "d" ⟨[], [("d/0.jpg", "x"), ("d/1.jpg", "y")]⟩ (by decide)

/-! Claim C5: per-item error handling in the fetch loop. -/

/-- C5: failures are caught per item: the loop never aborts (every index
of the range contributes exactly one sleep or skip), a fetch failure
increments the counter by exactly one and appends one logged error
event, the logged error indices form a subsequence of the range (so at
most one per index), and the final count equals the number of indices
that failed. -/
theorem download_error_accounting (net : Net) (ind_start ind_end : Nat) (b d : String)
    (fs0 : FS) :
    ((download_random_images net ind_start ind_end b d fs0).errCnt =
      (errIndices (download_random_images net ind_start ind_end b d fs0).events).length) ∧
    List.Sublist (errIndices (download_random_images net ind_start ind_end b d fs0).events)
      (List.range' ind_start (ind_end - ind_start)) ∧
    (sleepCount (download_random_images net ind_start ind_end b d fs0).events +
      skipCount (download_random_images net ind_start ind_end b d fs0).events =
      ind_end - ind_start) ∧
    (∀ (i : Nat) (s : DLState), fileExists s.fs (imagePath d i) = false →
      net.fetch (imageUrl b i) = none →
      downloadStep net b d i s =
        { s with errCnt := s.errCnt + 1,
                 events := s.events ++ [Event.request (imageUrl b i), Event.errNote i,
                   Event.sleep] }) ∧
    (∀ (i : Nat) (s : DLState) (body : String), fileExists s.fs (imagePath d i) = false →
      net.fetch (imageUrl b i) = some body → net.decode body = none →
      downloadStep net b d i s =
        { s with errCnt := s.errCnt + 1,
                 events := s.events ++ [Event.request (imageUrl b i), Event.errNote i,
                   Event.sleep] }) := by
  obtain ⟨evs, h1, h2, h3, h4, h5⟩ := downloadLoop_spec net b d
    (List.range' ind_start (ind_end - ind_start)) ⟨mkdirP fs0 d, 0, []⟩
  have hres : (download_random_images net ind_start ind_end b d fs0).events = evs := by
    rw [download_random_images, h1]
    simp
  have herr : (download_random_images net ind_start ind_end b d fs0).errCnt =
      (errIndices evs).length := by
    rw [download_random_images, h2]
    simp
  refine ⟨?_, ?_, ?_, ?_, ?_⟩
  · rw [herr, hres]
  · rw [hres]
    simpa using h5
  · rw [hres]
    simpa using h4
  · intro i s hf hn
    exact downloadStep_fetch_fail net b d i s hf hn
  · intro i s body hf hn hd
    exact downloadStep_decode_fail net b d i s hf body hn hd

/-- Witness for C5: a network whose every fetch raises gives two errors
over a two-index range, and the per-step conclusion holds at index 0. -/
theorem download_error_accounting_witness :
    (download_random_images ⟨fun _ => none, fun _ => none, fun _ => true⟩ 0 2 "u" "d"
      ⟨[], []⟩).errCnt =
      (errIndices (download_random_images ⟨fun _ => none, fun _ => none, fun _ => true⟩ 0 2 "u" "d"
        ⟨[], []⟩).events).length ∧
    downloadStep ⟨fun _ => none, fun _ => none, fun _ => true⟩ "u" "d" 0 ⟨⟨[], []⟩, 0, []⟩ =
      ⟨⟨[], []⟩, 1, [Event.request (imageUrl "u" 0), Event.errNote 0, Event.sleep]⟩ :=
  ⟨(download_error_accounting ⟨fun _ => none, fun _ => none, fun _ => true⟩ 0 2 "u" "d"
      ⟨[], []⟩).1,
   (download_error_accounting ⟨fun _ => none, fun _ => none, fun _ => true⟩ 0 2 "u" "d"
      ⟨[], []⟩).2.2.2.1 0 ⟨⟨[], []⟩, 0, []⟩ (by decide) rfl⟩

/-! Claim C4: the inter-item delay.  The code reaches the sleep only
after a download attempt: the existence check runs continue, which jumps
to the next iteration before the sleep, so a skipped index produces no
delay.  The claim as frozen (one delay per iteration, skips included) is
false; the counterexample below exhibits a one-index range that is
skipped and produces zero delays. -/

/-- C4 counterexample: over the one-index range 0..1 whose target file
d/0.jpg already exists, the run executes zero delays, not one; its whole
event log is the single skip notice. -/
theorem download_delay_counterexample :
    ¬ (sleepCount (download_random_images
        ⟨fun _ => some "body", fun _ => some "img", fun _ => true⟩ 0 1 "u" "d"
        ⟨[], [("d/0.jpg", "x")]⟩).events = 1 - 0) ∧
    (download_random_images ⟨fun _ => some "body", fun _ => some "img", fun _ => true⟩ 0 1 "u" "d"
      ⟨[], [("d/0.jpg", "x")]⟩).events = [Event.skipNote "d/0.jpg"] := by
  refine ⟨?_, by decide⟩
  decide

/-- C4 as amended: the delay runs exactly once per iteration that
attempts a download (successful or failed), and not at all for an
iteration that skips because the file exists; hence over any range the
number of delays plus the number of skip notices equals the number of
indices. -/
theorem download_delay_per_attempt :
    (∀ (net : Net) (b d : String) (i : Nat) (s : DLState),
      fileExists s.fs (imagePath d i) = true →
      (downloadStep net b d i s).events = s.events ++ [Event.skipNote (imagePath d i)]) ∧
    (∀ (net : Net) (b d : String) (i : Nat) (s : DLState),
      fileExists s.fs (imagePath d i) = false →
      sleepCount (downloadStep net b d i s).events = sleepCount s.events + 1) ∧
    (∀ (net : Net) (ind_start ind_end : Nat) (b d : String) (fs0 : FS),
      sleepCount (download_random_images net ind_start ind_end b d fs0).events +
        skipCount (download_random_images net ind_start ind_end b d fs0).events =
        ind_end - ind_start) := by
  refine ⟨?_, ?_, ?_⟩
  · intro net b d i s h
    rw [downloadStep_skip net b d i s h]
  · intro net b d i s h
    cases hfetch : net.fetch (imageUrl b i) with
    | none =>
      rw [downloadStep_fetch_fail net b d i s h hfetch]
      simp [sleepCount, List.count_append, List.count_cons]
    | some body =>
      cases hdec : net.decode body with
      | none =>
        rw [downloadStep_decode_fail net b d i s h body hfetch hdec]
        simp [sleepCount, List.count_append, List.count_cons]
      | some img =>
        rcases Bool.eq_false_or_eq_true (net.saveOk (imagePath d i)) with hs | hs
        · rw [downloadStep_success net b d i s h body img hfetch hdec hs]
          simp [sleepCount, List.count_append, List.count_cons]
        · rw [downloadStep_save_fail net b d i s h body img hfetch hdec hs]
          simp [sleepCount, List.count_append, List.count_cons]
  · intro net ind_start ind_end b d fs0
    obtain ⟨evs, h1, _, _, h4, _⟩ := downloadLoop_spec net b d
      (List.range' ind_start (ind_end - ind_start)) ⟨mkdirP fs0 d, 0, []⟩
    have hres : (download_random_images net ind_start ind_end b d fs0).events = evs := by
      rw [download_random_images, h1]
      simp
    rw [hres]
    simpa using h4

/-- Witness for C4 as amended, at a skipped index, a failing index and a
concrete range. -/
theorem download_delay_per_attempt_witness :
    (downloadStep ⟨fun _ => some "b", fun _ => some "i", fun _ => true⟩ "u" "d" 0
      ⟨⟨[], [("d/0.jpg", "x")]⟩, 0, []⟩).events =
      [] ++ [Event.skipNote (imagePath "d" 0)] ∧
    sleepCount (downloadStep ⟨fun _ => none, fun _ => none, fun _ => true⟩ "u" "d" 0
      ⟨⟨[], []⟩, 0, []⟩).events = sleepCount ([] : List Event) + 1 :=
  ⟨download_delay_per_attempt.1 ⟨fun _ => some "b", fun _ => some "i", fun _ => true⟩ "u" "d" 0
      ⟨⟨[], [("d/0.jpg", "x")]⟩, 0, []⟩ (by decide),
   download_delay_per_attempt.2.1 ⟨fun _ => none, fun _ => none, fun _ => true⟩ "u" "d" 0
      ⟨⟨[], []⟩, 0, []⟩ (by decide)⟩

/-! Helper lemmas for directory creation. -/

theorem mem_foldl_insertDir : ∀ (l ds : List String) (x : String),
    x ∈ l.foldl insertDir ds ↔ x ∈ ds ∨ x ∈ l := by
  intro l
  induction l with
  | nil => intro ds x; simp
  | cons d t ih =>
    intro ds x
    rw [List.foldl_cons, ih]
    constructor
    · rintro (hx | hx)
      · simp only [insertDir] at hx
        split at hx
        · exact Or.inl hx
        · rcases List.mem_append.mp hx with hx | hx
          · exact Or.inl hx
          · simp at hx
            subst hx
            exact Or.inr (List.mem_cons_self _ _)
      · exact Or.inr (List.mem_cons_of_mem d hx)
    · rintro (hx | hx)
      · left
        simp only [insertDir]
        split
        · exact hx
        · exact List.mem_append.mpr (Or.inl hx)
      · rcases List.mem_cons.mp hx with hx | hx
        · left
          simp only [insertDir]
          split
          · subst hx; assumption
          · subst hx; exact List.mem_append.mpr (Or.inr (by simp))
        · exact Or.inr hx

theorem foldl_insertDir_id : ∀ (l ds : List String), (∀ x ∈ l, x ∈ ds) →
    l.foldl insertDir ds = ds := by
  intro l
  induction l with
  | nil => intro ds _; rfl
  | cons d t ih =>
    intro ds hall
    rw [List.foldl_cons]
    have hd : insertDir ds d = ds := by
      simp only [insertDir, if_pos (hall d (List.mem_cons_self d t))]
    rw [hd]
    exact ih ds (fun x hx => hall x (List.mem_cons_of_mem d hx))

theorem mkdirP_idem (fs : FS) (p : String) : mkdirP (mkdirP fs p) p = mkdirP fs p := by
  cases fs with
  | mk dirs files =>
    simp only [mkdirP]
    congr 1
    apply foldl_insertDir_id
    intro x hx
    exact (mem_foldl_insertDir _ _ _).mpr (Or.inr hx)

theorem mem_mkdirP (fs : FS) (p : String) :
    ∀ q ∈ parentsOf p ++ [p], q ∈ (mkdirP fs p).dirs := by
  intro q hq
  simp only [mkdirP]
  exact (mem_foldl_insertDir _ _ _).mpr (Or.inr hq)

/-! Claim C10: the destination directory is created up front. -/

/-- C10: download_random_images creates the destination directory with
its parents before iterating, on every invocation, including an empty
range; directory creation is idempotent (creating it again changes
nothing), and the loop itself never changes the directory set, so no
iteration can find the destination folder absent. -/
theorem download_creates_dir (net : Net) (ind_start ind_end : Nat) (b d : String) (fs0 : FS) :
    (∀ p ∈ parentsOf d ++ [d],
      p ∈ (download_random_images net ind_start ind_end b d fs0).fs.dirs) ∧
    (download_random_images net ind_start ind_end b d fs0).fs.dirs = (mkdirP fs0 d).dirs ∧
    (ind_end ≤ ind_start →
      download_random_images net ind_start ind_end b d fs0 = ⟨mkdirP fs0 d, 0, []⟩) ∧
    (∀ (fs : FS) (p : String), mkdirP (mkdirP fs p) p = mkdirP fs p) := by
  obtain ⟨evs, _, _, h3, _, _⟩ := downloadLoop_spec net b d
    (List.range' ind_start (ind_end - ind_start)) ⟨mkdirP fs0 d, 0, []⟩
  have hdirs : (download_random_images net ind_start ind_end b d fs0).fs.dirs =
      (mkdirP fs0 d).dirs := by
    rw [download_random_images, h3]
  refine ⟨?_, hdirs, ?_, fun fs p => mkdirP_idem fs p⟩
  · intro p hp
    rw [hdirs]
    exact mem_mkdirP fs0 d p hp
  · intro hle
    rw [download_random_images, Nat.sub_eq_zero_of_le hle]
    rfl

/-- Witness for C10: with an empty range the directory (with its parent)
is still created and nothing else happens. -/
theorem download_creates_dir_witness :
    "data/downloaded-images" ∈ (download_random_images
      ⟨fun _ => none, fun _ => none, fun _ => true⟩ 3 3 "u" "data/downloaded-images"
      ⟨[], []⟩).fs.dirs ∧
    download_random_images ⟨fun _ => none, fun _ => none, fun _ => true⟩ 3 3 "u"
      "data/downloaded-images" ⟨[], []⟩ =
      ⟨mkdirP ⟨[], []⟩ "data/downloaded-images", 0, []⟩ :=
  ⟨(download_creates_dir ⟨fun _ => none, fun _ => none, fun _ => true⟩ 3 3 "u"
      "data/downloaded-images" ⟨[], []⟩).1 "data/downloaded-images" (by decide),
   (download_creates_dir ⟨fun _ => none, fun _ => none, fun _ => true⟩ 3 3 "u"
      "data/downloaded-images" ⟨[], []⟩).2.2.1 (by decide)⟩

theorem pathJoin_eq (a b : String) (ha : a ≠ "") (has : endsWithSlash a = false) :
    pathJoin a b = a ++ "/" ++ b := by
  rw [pathJoin, if_neg ha, if_neg (by simp [has])]

/-! Claim C8: source URL and destination path formats. -/

/-- C8: for an index whose target file does not exist, the step issues
exactly one request whose URL is the base URL, the decimal index
left-padded with zeros to width 5 and the jpg extension (width exactly 5
whenever the index is below 100000); on success the decoded image is
saved at {download_dir}/{i}.jpg with the unpadded index. -/
theorem download_url_format (net : Net) (b d : String) (i : Nat) (s : DLState)
    (h : fileExists s.fs (imagePath d i) = false) :
    imageUrl b i = b ++ zfill5 (decStr i) ++ ".jpg" ∧
    (∃ rest : List Event, (downloadStep net b d i s).events =
      s.events ++ Event.request (imageUrl b i) :: rest) ∧
    (i < 100000 → (zfill5 (decStr i)).length = 5) ∧
    (∀ body img : String, net.fetch (imageUrl b i) = some body → net.decode body = some img →
      net.saveOk (imagePath d i) = true →
      downloadStep net b d i s =
        { s with fs := writeFile s.fs (imagePath d i) img,
                 events := s.events ++ [Event.request (imageUrl b i),
                   Event.wrote (imagePath d i), Event.sleep] } ∧
      readFile (downloadStep net b d i s).fs (imagePath d i) = some img) ∧
    (d ≠ "" → endsWithSlash d = false → imagePath d i = d ++ "/" ++ decStr i ++ ".jpg") := by
  refine ⟨rfl, ?_, fun hi => zfill5_length_decStr i hi, ?_, ?_⟩
  · cases hfetch : net.fetch (imageUrl b i) with
    | none =>
      refine ⟨[Event.errNote i, Event.sleep], ?_⟩
      rw [downloadStep_fetch_fail net b d i s h hfetch]
    | some body =>
      cases hdec : net.decode body with
      | none =>
        refine ⟨[Event.errNote i, Event.sleep], ?_⟩
        rw [downloadStep_decode_fail net b d i s h body hfetch hdec]
      | some img =>
        rcases Bool.eq_false_or_eq_true (net.saveOk (imagePath d i)) with hs | hs
        · refine ⟨[Event.wrote (imagePath d i), Event.sleep], ?_⟩
          rw [downloadStep_success net b d i s h body img hfetch hdec hs]
        · refine ⟨[Event.errNote i, Event.sleep], ?_⟩
          rw [downloadStep_save_fail net b d i s h body img hfetch hdec hs]
  · intro body img hfetch hdec hs
    rw [downloadStep_success net b d i s h body img hfetch hdec hs]
    exact ⟨rfl, readFile_writeFile s.fs (imagePath d i) img⟩
  · intro hd hds
    rw [imagePath, pathJoin_eq d (decStr i ++ ".jpg") hd hds]
    simp [String.append_assoc]

/-- Witness for C8 at index 7, the example of the claim: the URL gets
the five-digit zero-padded index 00007 while the file is saved under the
plain index 7. -/
theorem download_url_format_witness :
    imageUrl "u" 7 = "u" ++ zfill5 (decStr 7) ++ ".jpg" ∧
    (7 < 100000 → (zfill5 (decStr 7)).length = 5) ∧
    (imagePath "d" 7 = "d" ++ "/" ++ decStr 7 ++ ".jpg") ∧
    zfill5 (decStr 7) = "00007" ∧ imageUrl "u" 7 = "u00007.jpg" ∧ imagePath "d" 7 = "d/7.jpg" :=
  ⟨(download_url_format ⟨fun _ => none, fun _ => none, fun _ => true⟩ "u" "d" 7
      ⟨⟨[], []⟩, 0, []⟩ (by decide)).1,
   (download_url_format ⟨fun _ => none, fun _ => none, fun _ => true⟩ "u" "d" 7
      ⟨⟨[], []⟩, 0, []⟩ (by decide)).2.2.1,
   (download_url_format ⟨fun _ => none, fun _ => none, fun _ => true⟩ "u" "d" 7
      ⟨⟨[], []⟩, 0, []⟩ (by decide)).2.2.2.2 (by decide) (by decide),
   by decide, by decide, by decide⟩

/-! Helper lemmas on strings and paths. -/

theorem data_ne_nil_of_ne_empty (s : String) (h : s ≠ "") : s.data ≠ [] := by
  intro hl
  apply h
  cases s with
  | mk l =>
    simp only [String.data] at hl
    subst hl
    rfl

theorem endsWithSlash_append (a b : String) (hb : b ≠ "") :
    endsWithSlash (a ++ b) = endsWithSlash b := by
  simp only [endsWithSlash, String.data_append]
  rw [List.getLast?_append_of_ne_nil _ (data_ne_nil_of_ne_empty b hb)]

theorem append_ne_empty_right (a b : String) (hb : b ≠ "") : a ++ b ≠ "" := by
  intro h
  have hd := congrArg String.data h
  rw [String.data_append] at hd
  exact data_ne_nil_of_ne_empty b hb (List.append_eq_nil.mp hd).2

/-! Claim C6: layout and format of the persisted metadata file. -/

/-- C6: with per-category separation on, save_metadata_to_file writes
the record at root/token_type/index — the file name is the decimal
index with no extension — creating the category subfolder (with
parents) on demand and without error when it already exists; the
written content is the json.dump text with 2-space indentation whose
keys come in the field order of the record; and a pre-existing file at
that path is shadowed unconditionally by the new content. -/
theorem save_metadata_layout :
    (∀ (saveOk : String → Bool) (folder : String) (index : Nat) (md : MetadataRecord) (fs : FS),
      folder ≠ "" → endsWithSlash folder = false →
      md.token_type ≠ "" → endsWithSlash md.token_type = false →
      saveOk (folder ++ "/" ++ md.token_type ++ "/" ++ decStr index) = true →
      save_metadata_to_file saveOk folder index md fs =
        Except.ok (writeFile (mkdirP fs (folder ++ "/" ++ md.token_type))
          (folder ++ "/" ++ md.token_type ++ "/" ++ decStr index) (dumps md)) ∧
      readFile (writeFile (mkdirP fs (folder ++ "/" ++ md.token_type))
          (folder ++ "/" ++ md.token_type ++ "/" ++ decStr index) (dumps md))
        (folder ++ "/" ++ md.token_type ++ "/" ++ decStr index) = some (dumps md) ∧
      (folder ++ "/" ++ md.token_type) ∈ (writeFile (mkdirP fs (folder ++ "/" ++ md.token_type))
          (folder ++ "/" ++ md.token_type ++ "/" ++ decStr index) (dumps md)).dirs) ∧
    (∀ md : MetadataRecord, jsonKeys (jsonOfMetadata md) =
      ["name", "description", "image", "token_type", "attributes"]) ∧
    (∀ (fs : FS) (p : String), mkdirP (mkdirP fs p) p = mkdirP fs p) ∧
    dumps ⟨"a", "b", "c", "Edition", [⟨"Age", AttrValue.int 20⟩]⟩ =
      "\x7b\n  \"name\": \"a\",\n  \"description\": \"b\",\n  \"image\": \"c\",\n  \"token_type\": \"Edition\",\n  \"attributes\": [\n    \x7b\n      \"name\": \"Age\",\n      \"value\": 20\n    \x7d\n  ]\n\x7d" := by
  refine ⟨?_, fun md => rfl, fun fs p => mkdirP_idem fs p, by decide⟩
  intro saveOk folder index md fs hf hfs htt htts hsave
  have hdir_ne : folder ++ "/" ++ md.token_type ≠ "" :=
    append_ne_empty_right _ _ htt
  have hdir_slash : endsWithSlash (folder ++ "/" ++ md.token_type) = false := by
    rw [endsWithSlash_append _ _ htt]
    exact htts
  have hsplit : save_metadata_to_file saveOk folder index md fs =
      if saveOk (folder ++ "/" ++ md.token_type ++ "/" ++ decStr index) then
        Except.ok (writeFile (mkdirP fs (folder ++ "/" ++ md.token_type))
          (folder ++ "/" ++ md.token_type ++ "/" ++ decStr index) (dumps md))
      else Except.error () := by
    simp only [save_metadata_to_file, SEPARATE_TOKEN_TYPES, if_true,
      pathJoin_eq folder md.token_type hf hfs,
      pathJoin_eq (folder ++ "/" ++ md.token_type) (decStr index) hdir_ne hdir_slash]
  refine ⟨?_, readFile_writeFile _ _ _, ?_⟩
  · rw [hsplit, if_pos hsave]
  · show (folder ++ "/" ++ md.token_type) ∈ (mkdirP fs (folder ++ "/" ++ md.token_type)).dirs
    exact mem_mkdirP fs _ _ (List.mem_append.mpr (Or.inr (by simp)))

/-- Witness for C6: a concrete Edition record written under a concrete
root lands at root/Edition/3. -/
theorem save_metadata_layout_witness :
    save_metadata_to_file (fun _ => true) "data/json-metadata" 3
      ⟨"a", "b", "c", "Edition", []⟩ ⟨[], []⟩ =
      Except.ok (writeFile (mkdirP ⟨[], []⟩ ("data/json-metadata" ++ "/" ++ "Edition"))
        ("data/json-metadata" ++ "/" ++ "Edition" ++ "/" ++ decStr 3)
        (dumps ⟨"a", "b", "c", "Edition", []⟩)) ∧
    readFile (writeFile (mkdirP ⟨[], []⟩ ("data/json-metadata" ++ "/" ++ "Edition"))
        ("data/json-metadata" ++ "/" ++ "Edition" ++ "/" ++ decStr 3)
        (dumps ⟨"a", "b", "c", "Edition", []⟩))
      ("data/json-metadata" ++ "/" ++ "Edition" ++ "/" ++ decStr 3) =
      some (dumps ⟨"a", "b", "c", "Edition", []⟩) :=
  ⟨((save_metadata_layout.1 (fun _ => true) "data/json-metadata" 3
      ⟨"a", "b", "c", "Edition", []⟩ ⟨[], []⟩ (by decide) (by decide) (by decide) (by decide)
      rfl)).1,
   ((save_metadata_layout.1 (fun _ => true) "data/json-metadata" 3
      ⟨"a", "b", "c", "Edition", []⟩ ⟨[], []⟩ (by decide) (by decide) (by decide) (by decide)
      rfl)).2.1⟩

/-! Claim C7: filesystem write failures.  In save_metadata_to_file the
open and json.dump calls sit outside any try block, so a write failure
propagates and aborts the metadata run; but in download_random_images
the image.save call sits inside the per-item try block, so a write
failure there is caught, logged and counted exactly like a fetch
failure.  The claim as frozen (neither pipeline catches write failures)
is therefore false; the counterexample shows the image pipeline
completing with the failure counted. -/

/-- C7 counterexample: with fetch and decode succeeding but every save
failing, the one-index image pipeline run is not terminated: the
failure is caught, logged as an error event and counted, and the run
completes with error count 1. -/
theorem write_failure_image_pipeline_counterexample :
    (download_random_images ⟨fun _ => some "body", fun _ => some "img", fun _ => false⟩ 0 1 "u" "d"
      ⟨[], []⟩).errCnt = 1 ∧
    (download_random_images ⟨fun _ => some "body", fun _ => some "img", fun _ => false⟩ 0 1 "u" "d"
      ⟨[], []⟩).events = [Event.request "u00000.jpg", Event.errNote 0, Event.sleep] := by
  exact ⟨by decide, by decide⟩

/-- C7 as amended: a write failure in the metadata pipeline propagates
as an uncaught exception that terminates the run at the failing index
(here: the very first file, data/json-metadata/Folio/0); a write
failure during the save step of the image fetcher is caught by the
per-item handler, increments the error count by one, logs the error and
lets iteration continue. -/
theorem write_failure_handling :
    (∀ (saveOk : String → Bool) (ipfsFolder : String) (g : Nat → Nat → Nat) (fs0 : FS),
      saveOk "data/json-metadata/Folio/0" = false →
      metadataPipeline saveOk ipfsFolder g fs0 = Except.error ()) ∧
    (∀ (net : Net) (b d : String) (i : Nat) (s : DLState) (body img : String),
      fileExists s.fs (imagePath d i) = false →
      net.fetch (imageUrl b i) = some body → net.decode body = some img →
      net.saveOk (imagePath d i) = false →
      downloadStep net b d i s =
        { s with errCnt := s.errCnt + 1,
                 events := s.events ++ [Event.request (imageUrl b i), Event.errNote i,
                   Event.sleep] }) := by
  constructor
  · intro saveOk ipfsFolder g fs0 hsave
    have hstep : ∀ fs : FS, save_metadata_to_file saveOk OUTPUT_FOLDER 0
        (generate_nft_metadata ipfsFolder (g 0) 0) fs = Except.error () := by
      intro fs
      simp only [save_metadata_to_file, SEPARATE_TOKEN_TYPES, if_true]
      rw [show pathJoin (pathJoin OUTPUT_FOLDER
          (generate_nft_metadata ipfsFolder (g 0) 0).token_type) (decStr 0) =
          "data/json-metadata/Folio/0" from rfl, hsave]
      rfl
    simp only [metadataPipeline]
    rw [show List.range' 0 NUM_FILES = 0 :: List.range' 1 519 from rfl, List.foldlM_cons,
      hstep]
    rfl
  · intro net b d i s body img h hfetch hdec hs
    exact downloadStep_save_fail net b d i s h body img hfetch hdec hs

/-- Witness for C7 as amended: a filesystem refusing every write makes
the metadata pipeline abort with an error while the image fetch step
counts the same failure and moves on. -/
theorem write_failure_handling_witness :
    metadataPipeline (fun _ => false) "ipfs" (fun _ _ => 0) ⟨[], []⟩ = Except.error () ∧
    downloadStep ⟨fun _ => some "body", fun _ => some "img", fun _ => false⟩ "u" "d" 0
      ⟨⟨[], []⟩, 0, []⟩ =
      ⟨⟨[], []⟩, 1, [Event.request (imageUrl "u" 0), Event.errNote 0, Event.sleep]⟩ :=
  ⟨write_failure_handling.1 (fun _ => false) "ipfs" (fun _ _ => 0) ⟨[], []⟩ rfl,
   write_failure_handling.2 ⟨fun _ => some "body", fun _ => some "img", fun _ => false⟩ "u" "d" 0
     ⟨⟨[], []⟩, 0, []⟩ "body" "img" (by decide) rfl rfl rfl⟩
